import Mathlib

/-!
Shallow embedding of `src/android/pylib/symbols/deobfuscator.py`.

Python strings are modelled as `List Char` (a sequence of code points), so
`line[:-1]` becomes `List.dropLast`.  A `Deobfuscator` handle's observable
state (the `subprocess.Popen` attributes the module reads and writes, the
`threading.Lock`, and the `_closed_called` flag) is a structure; side
effects on the process (writes, flush, kill, ...) are recorded in an
explicit `Effect` trace.  Behaviour of the external worker process and of
other threads (I/O errors, the bytes available on stdout, timeouts,
concurrent `Close()`) is an `Env` oracle parameter.
-/

/-- A Python string: a sequence of code points. -/
abbrev Str := List Char

/-- `_MINIUMUM_TIMEOUT = 5.0` (sic, source spelling). -/
def MINIUMUM_TIMEOUT : ℚ := 5

/-- `_PER_LINE_TIMEOUT = .002`. -/
def PER_LINE_TIMEOUT : ℚ := 2 / 1000

/-- Observable side effects of the module on the OS and on locks. -/
inductive Effect where
  | handleLock
  | poolLock
  | write (s : Str)
  | flush
  | spawnReader
  | joinReader (timeout : ℚ)
  | closeStdin
  | killProc
  | waitProc
  | spawnProcess (id : Nat)
deriving DecidableEq, Repr

/-- Observable state of one `Deobfuscator` handle.  `id` models Python
object identity (each `subprocess.Popen` is a distinct object);
`returncode` is the `Popen.returncode` attribute (`none` = still `None`);
`closed_called` is `self._closed_called`; `lockLocked` is
`self._lock.locked()`; the last three record what `Close()` did to the
process. -/
structure Deobfuscator where
  id : Nat
  returncode : Option Int
  closed_called : Bool
  lockLocked : Bool
  stdinClosed : Bool
  killed : Bool
  waited : Bool
deriving DecidableEq, Repr

instance : Inhabited Deobfuscator :=
  ⟨⟨0, none, false, false, false, false, false⟩⟩

/-- `Deobfuscator.__init__`: spawns the worker process eagerly; fresh lock,
`_closed_called = False`. -/
def newDeobfuscator (id : Nat) : Deobfuscator :=
  { id := id, returncode := none, closed_called := false, lockLocked := false,
    stdinClosed := false, killed := false, waited := false }

namespace Deobfuscator

/-- `IsClosed`: `self._closed_called or self._proc.returncode is not None`. -/
def IsClosed (d : Deobfuscator) : Bool :=
  d.closed_called || d.returncode.isSome

/-- `IsBusy`: `self._lock.locked()`. -/
def IsBusy (d : Deobfuscator) : Bool :=
  d.lockLocked

/-- `IsReady`: `not self.IsClosed() and not self.IsBusy()`. -/
def IsReady (d : Deobfuscator) : Bool :=
  !d.IsClosed && !d.IsBusy

/-- `Close`: sets `self._closed_called = True`, then — only if
`not self.IsClosed()` — closes stdin, kills the process and waits for it.
The source sets the flag *before* the check, exactly as modelled here. -/
def Close (d : Deobfuscator) : Deobfuscator × List Effect :=
  let d1 := { d with closed_called := true }
  if d1.IsClosed = false then
    ({ d1 with stdinClosed := true, killed := true, waited := true },
     [.closeStdin, .killProc, .waitProc])
  else
    (d1, [])

end Deobfuscator

/-- The `deobfuscate_reader` closure: repeatedly `readline()`; stop on an
empty read (EOF); otherwise strip the last character (`line[:-1]`), stop
if the result equals `eof_line`, else append it.  The argument list is the
sequence of successful `readline()` results before EOF. -/
def readerLoop (eofLine : Str) : List Str → List Str
  | [] => []
  | line :: rest =>
      if line = [] then []
      else
        let stripped := line.dropLast
        if stripped = eofLine then []
        else stripped :: readerLoop eofLine rest

/-- Oracle for the parts of a `TransformLines` transaction decided by the
worker process and by other threads. -/
structure Env where
  /-- `stdin.write` / `flush` raises `IOError`. -/
  writeRaises : Bool
  /-- another thread makes the handle closed during `join()`
  (sets `_closed_called`). -/
  closedDuringJoin : Bool
  /-- `reader_thread.is_alive()` still holds after `join(timeout)`. -/
  readerTimesOut : Bool
  /-- successful `readline()` results available on the worker's stdout. -/
  streamLines : List Str
deriving Repr

namespace Deobfuscator

/-- `TransformLines`.  Returns (result, final handle state, action trace);
`Except.error` would mean an exception escaping to the caller. -/
def TransformLines (d : Deobfuscator) (lines : List Str) (env : Env)
    (eofLine : Str) : Except String (List Str) × Deobfuscator × List Effect :=
  if lines = [] then (.ok [], d, [])
  else
    -- with self._lock:
    let dL := { d with lockLocked := true }
    if dL.IsClosed then
      -- warn and Close() when the process died on its own
      let r := if dL.closed_called then (dL, ([] : List Effect)) else dL.Close
      (.ok lines, { r.1 with lockLocked := false }, Effect.handleLock :: r.2)
    else
      -- reader_thread.start(); write lines, write eof token, flush
      if env.writeRaises then
        -- except IOError: log, Close(), return lines
        let r := dL.Close
        (.ok lines, { r.1 with lockLocked := false },
         Effect.handleLock :: Effect.spawnReader :: r.2)
      else
        let wActs : List Effect :=
          [.write (List.intercalate ['\n'] lines),
           .write ('\n' :: eofLine ++ ['\n']),
           .flush,
           .joinReader (max MINIUMUM_TIMEOUT
             ((lines.length : ℚ) * PER_LINE_TIMEOUT))]
        let dJ := if env.closedDuringJoin then { dL with closed_called := true }
                  else dL
        if dJ.IsClosed then
          -- Close() called by another thread during join(): return lines
          (.ok lines, { dJ with lockLocked := false },
           Effect.handleLock :: Effect.spawnReader :: wActs)
        else if env.readerTimesOut then
          -- timed out: Close(), return lines
          let r := dJ.Close
          (.ok lines, { r.1 with lockLocked := false },
           Effect.handleLock :: Effect.spawnReader :: wActs ++ r.2)
        else
          (.ok (readerLoop eofLine env.streamLines),
           { dJ with lockLocked := false },
           Effect.handleLock :: Effect.spawnReader :: wActs)

end Deobfuscator

/-- Message of `assert self._pool, '...'` in `DeobfuscatorPool.TransformLines`. -/
def poolAssertMsg : String :=
  "AssertionError: TransformLines() called on a closed DeobfuscatorPool."

/-- State of a `DeobfuscatorPool`: `pool` is `self._pool` (`none` after
`Close()` set it to `None`); `nextId` is model bookkeeping supplying fresh
object identities for newly spawned handles. -/
structure DeobfuscatorPool where
  pool : Option (List Deobfuscator)
  nextId : Nat
deriving DecidableEq, Repr

/-- `DeobfuscatorPool.__init__`: spawn `pool_size` fresh handles. -/
def newDeobfuscatorPool (pool_size : Nat) : DeobfuscatorPool :=
  { pool := some ((List.range pool_size).map newDeobfuscator),
    nextId := pool_size }

/-- The restart scan in `DeobfuscatorPool.TransformLines`: every slot whose
handle `IsClosed()` is replaced in place by `Deobfuscator(mapping_path)`.
Returns the new list, the next fresh id, and the spawn effects. -/
def restartClosed : List Deobfuscator → Nat → List Deobfuscator × Nat × List Effect
  | [], c => ([], c, [])
  | d :: rest, c =>
      if d.IsClosed then
        let r := restartClosed rest (c + 1)
        (newDeobfuscator c :: r.1, r.2.1, Effect.spawnProcess c :: r.2.2)
      else
        let r := restartClosed rest c
        (d :: r.1, r.2.1, r.2.2)

/-- The body of `with self._lock:` in `DeobfuscatorPool.TransformLines`
(for a non-empty pool): restart closed handles, select
`next((x for x in self._pool if x.IsReady()), self._pool[0])`, then rotate
(`remove(selected); append(selected)`; `list.remove` drops the first item
comparing equal, i.e. the same object).  Returns
(rotated pool, next fresh id, selected handle, spawn effects). -/
def poolSelect (l : List Deobfuscator) : Deobfuscator :=
  (l.find? Deobfuscator.IsReady).getD (l.headD default)

def poolLockedStep (l : List Deobfuscator) (c : Nat) :
    List Deobfuscator × Nat × Deobfuscator × List Effect :=
  let r := restartClosed l c
  (r.1.erase (poolSelect r.1) ++ [poolSelect r.1], r.2.1, poolSelect r.1,
   r.2.2)

namespace DeobfuscatorPool

/-- `DeobfuscatorPool.TransformLines`.  `assert self._pool` fails (an
`AssertionError` escapes) when `_pool` is `None` or empty; otherwise the
locked step runs, and `selected.TransformLines(lines)` is called after the
lock is released.  The pool slot holding the selected handle (now last)
aliases the selected object, so it reflects the handle's post-call state. -/
def TransformLines (p : DeobfuscatorPool) (lines : List Str) (env : Env)
    (eofLine : Str) :
    Except String (List Str) × DeobfuscatorPool × List Effect :=
  match p.pool with
  | none => (.error poolAssertMsg, p, [.poolLock])
  | some [] => (.error poolAssertMsg, p, [.poolLock])
  | some (d0 :: rest) =>
      let s := poolLockedStep (d0 :: rest) p.nextId
      let t := s.2.2.1.TransformLines lines env eofLine
      (t.1,
       { pool := some (s.1.dropLast ++ [t.2.1]), nextId := s.2.1 },
       Effect.poolLock :: s.2.2.2 ++ t.2.2)

/-- `DeobfuscatorPool.Close`: under the lock, `Close()` every handle and
set `self._pool = None`.  Calling it again would iterate over `None`
(a `TypeError`). -/
def Close (p : DeobfuscatorPool) :
    Except String (DeobfuscatorPool × List Effect) :=
  match p.pool with
  | none => .error "TypeError: NoneType object is not iterable"
  | some l =>
      .ok ({ pool := none, nextId := p.nextId },
           Effect.poolLock :: l.flatMap (fun d => d.Close.2))

end DeobfuscatorPool

/-- Effects that touch a worker handle (its lock, its streams, its
process) as opposed to pool bookkeeping (`poolLock`, `spawnProcess`). -/
def touchesHandle : Effect → Bool
  | .handleLock => true
  | .write _ => true
  | .flush => true
  | .spawnReader => true
  | .joinReader _ => true
  | .closeStdin => true
  | .killProc => true
  | .waitProc => true
  | .poolLock => false
  | .spawnProcess _ => false

/-- Selections made by `n` sequential, single-threaded pool transactions,
each completing (and writing its rotation back) before the next starts. -/
def selectionsN : List Deobfuscator → Nat → Nat → List Deobfuscator
  | _, _, 0 => []
  | l, c, n + 1 =>
      let s := poolLockedStep l c
      s.2.2.1 :: selectionsN s.1 s.2.1 n

/-- `Close` is idempotent and sets the explicit-closed flag. -/
theorem Close_idem (d : Deobfuscator) :
    (d.Close.1.Close) = (d.Close.1, []) ∧ d.Close.1.closed_called = true := by
  constructor
  · simp [Deobfuscator.Close, Deobfuscator.IsClosed]
  · simp [Deobfuscator.Close, Deobfuscator.IsClosed]

/-- C1: the spec says `close()` closes stdin, kills the process and waits
for it whenever the process has not already terminated.  The code sets
`self._closed_called = True` *before* testing `not self.IsClosed()`, and
`IsClosed()` reads that very flag, so the guard is always false: `Close()`
performs no effect on the process at all, even when `returncode` is still
`None`.  (The flag is set and the call is idempotent, but the
terminate-and-wait part of the claim never happens.) -/
theorem Close_never_terminates_process (d : Deobfuscator) :
    d.Close.2 = [] ∧
    d.Close.1.killed = d.killed ∧
    d.Close.1.stdinClosed = d.stdinClosed ∧
    d.Close.1.waited = d.waited ∧
    d.Close.1.closed_called = true := by
  simp [Deobfuscator.Close, Deobfuscator.IsClosed]

/-- C3: `isClosed()` holds iff the handle was explicitly closed or the
recorded exit status is set (`returncode is not None`, a non-blocking
attribute read), and `isReady()` is the conjunction of `!isClosed()` and
`!isBusy()`. -/
theorem IsClosed_IsReady_spec (d : Deobfuscator) :
    (d.IsClosed = true ↔
      d.closed_called = true ∨ ∃ rc, d.returncode = some rc) ∧
    d.IsReady = (!d.IsClosed && !d.IsBusy) := by
  refine ⟨?_, rfl⟩
  simp [Deobfuscator.IsClosed, Option.isSome_iff_exists]

/-- C2: on every worker-level failure path — handle closed at lock
acquisition, `IOError` from write/flush, reader timeout, or the handle
closed during `join()` — `TransformLines` returns the original non-empty
input unchanged, and no exception reaches the caller. -/
theorem TransformLines_failure_returns_input
    (d : Deobfuscator) (lines : List Str) (env : Env) (eofLine : Str)
    (hne : lines ≠ [])
    (hfail : d.IsClosed = true ∨ env.writeRaises = true ∨
             env.closedDuringJoin = true ∨ env.readerTimesOut = true) :
    (d.TransformLines lines env eofLine).1 = .ok lines := by
  cases hc : d.IsClosed <;> cases hw : env.writeRaises <;>
    cases hj : env.closedDuringJoin <;> cases ht : env.readerTimesOut <;>
    simp_all [Deobfuscator.TransformLines, Deobfuscator.Close,
      Deobfuscator.IsClosed]

/-- C2 witness: a write failure on a one-line input echoes the input. -/
theorem TransformLines_failure_returns_input_witness :
    ((newDeobfuscator 0).TransformLines [['a']] ⟨true, false, false, []⟩
      []).1 = .ok [['a']] :=
  TransformLines_failure_returns_input _ _ _ _ (by decide)
    (Or.inr (Or.inl rfl))

/-- C4: whenever the transaction reaches the wait for the reader, the
timeout passed to `join` is `max(5, lineCount * 0.002)`. -/
theorem TransformLines_timeout_formula
    (d : Deobfuscator) (lines : List Str) (env : Env) (eofLine : Str)
    (hne : lines ≠ []) (hc : d.IsClosed = false)
    (hw : env.writeRaises = false) :
    Effect.joinReader (max 5 ((lines.length : ℚ) * (2 / 1000))) ∈
      (d.TransformLines lines env eofLine).2.2 := by
  cases hj : env.closedDuringJoin <;> cases ht : env.readerTimesOut <;>
    simp_all [Deobfuscator.TransformLines, Deobfuscator.Close,
      Deobfuscator.IsClosed, MINIUMUM_TIMEOUT, PER_LINE_TIMEOUT]

/-- C4 witness: for a single-line request the join timeout is
`max 5 (1 * 0.002) = 5`. -/
theorem TransformLines_timeout_formula_witness :
    Effect.joinReader (max 5 ((([['a']] : List Str).length : ℚ) * (2 / 1000)))
      ∈ ((newDeobfuscator 0).TransformLines [['a']]
          ⟨false, false, false, []⟩ []).2.2 :=
  TransformLines_timeout_formula _ _ _ _ (by decide) rfl rfl

/-- When every raw line read from the stream is a payload followed by a
single `'\n'`, the reader accumulates the newline-stripped payloads of the
lines strictly before the first sentinel payload (or before end-of-input),
and discards the sentinel itself. -/
theorem readerLoop_eq_takeWhile (eofLine : Str) (raws : List Str)
    (h : ∀ s ∈ raws, ∃ t : Str, s = t ++ ['\n'] ∧ '\n' ∉ t) :
    readerLoop eofLine raws =
      (raws.map List.dropLast).takeWhile (fun s => s ≠ eofLine) := by
  induction raws with
  | nil => rfl
  | cons line rest ih =>
      obtain ⟨t, rfl, -⟩ := h line (by simp)
      have hne : t ++ ['\n'] ≠ ([] : Str) := by simp
      have hdrop : (t ++ ['\n']).dropLast = t := List.dropLast_concat
      by_cases ht : t = eofLine
      · subst ht
        simp [readerLoop, hne, hdrop, List.takeWhile_cons]
      · have hih := ih (fun s hs => h s (by simp [hs]))
        simp [readerLoop, hne, hdrop, ht, List.takeWhile_cons, hih]

/-- C6: on the success path (open handle, no write error, no concurrent
close, reader finished in time) `TransformLines` returns exactly the
accumulated reader output: one entry per stream line with its terminator
stripped, up to but excluding the sentinel line, or up to end-of-input. -/
theorem TransformLines_success_reader_spec
    (d : Deobfuscator) (lines : List Str) (env : Env) (eofLine : Str)
    (hne : lines ≠ []) (hc : d.IsClosed = false)
    (hw : env.writeRaises = false) (hj : env.closedDuringJoin = false)
    (ht : env.readerTimesOut = false)
    (hstream : ∀ s ∈ env.streamLines, ∃ t : Str, s = t ++ ['\n'] ∧ '\n' ∉ t) :
    (d.TransformLines lines env eofLine).1 =
      .ok ((env.streamLines.map List.dropLast).takeWhile
        (fun s => s ≠ eofLine)) := by
  have h1 : (d.TransformLines lines env eofLine).1 =
      .ok (readerLoop eofLine env.streamLines) := by
    simp_all [Deobfuscator.TransformLines, Deobfuscator.IsClosed]
  rw [h1, readerLoop_eq_takeWhile eofLine env.streamLines hstream]

/-- C6 witness: a stream delivering `"x\n"` then nothing yields `["x"]`. -/
theorem TransformLines_success_reader_spec_witness :
    ((newDeobfuscator 0).TransformLines [['a']]
        ⟨false, false, false, [['x', '\n']]⟩ ['e']).1 =
      .ok ((([['x', '\n']] : List Str).map List.dropLast).takeWhile
        (fun s => s ≠ ['e'])) :=
  TransformLines_success_reader_spec _ _ _ _ (by decide) rfl rfl rfl rfl
    (by
      intro s hs
      simp only [List.mem_singleton] at hs
      exact ⟨['x'], by simp [hs], by decide⟩)

/-- C10: the reader strips the last character of every line
unconditionally (`line[:-1]`), so a final line delivered at end-of-stream
without a trailing newline loses its genuine last character, and a
sentinel line lacking its trailing newline is not recognized as the
terminator (it is stripped and appended instead of being discarded). -/
theorem reader_strips_last_char_unconditionally
    (eofLine t : Str) (hne : t ≠ []) (hstrip : t.dropLast ≠ eofLine) :
    readerLoop eofLine [t] = [t.dropLast] ∧
    t.dropLast.length + 1 = t.length ∧
    (eofLine ≠ [] → readerLoop eofLine [eofLine] = [eofLine.dropLast]) := by
  refine ⟨by simp [readerLoop, hne, hstrip], ?_, ?_⟩
  · have := List.length_dropLast t
    have hpos : 0 < t.length := List.length_pos.mpr hne
    omega
  · intro he
    have hlt : eofLine.dropLast.length < eofLine.length := by
      have := List.length_dropLast eofLine
      have hpos : 0 < eofLine.length := List.length_pos.mpr he
      omega
    have hne2 : eofLine.dropLast ≠ eofLine := fun hEq => by
      rw [hEq] at hlt; exact lt_irrefl _ hlt
    simp [readerLoop, he, hne2]

/-- C10 witness: from raw line `"ab"` (no newline) the reader keeps `"a"`;
an unterminated sentinel `"e"` is appended as `""` rather than discarded. -/
theorem reader_strips_last_char_unconditionally_witness :
    readerLoop ['e'] [['a', 'b']] = [(['a', 'b'] : Str).dropLast] ∧
    (['a', 'b'] : Str).dropLast.length + 1 = (['a', 'b'] : Str).length ∧
    ((['e'] : Str) ≠ [] → readerLoop ['e'] [['e']] = [(['e'] : Str).dropLast]) :=
  reader_strips_last_char_unconditionally ['e'] ['a', 'b'] (by decide)
    (by decide)

/-- The restart scan touches no handle I/O: its only effects are process
spawns for the replaced slots. -/
theorem restartClosed_effects_spawn_only (l : List Deobfuscator) (c : Nat) :
    ∀ e ∈ (restartClosed l c).2.2, touchesHandle e = false := by
  induction l generalizing c with
  | nil => intro e he; simp [restartClosed] at he
  | cons d rest ih =>
      intro e he
      cases h : d.IsClosed with
      | true =>
          simp only [restartClosed, h] at he
          simp only [if_true, eq_self_iff_true, List.mem_cons] at he
          rcases he with rfl | he
          · rfl
          · exact ih (c + 1) e he
      | false =>
          simp [restartClosed, h] at he
          exact ih c e he

/-- The restart scan replaces exactly the closed slots, in place, by
freshly spawned (open) handles, and leaves the others untouched. -/
theorem restartClosed_forall2 (l : List Deobfuscator) (c : Nat) :
    List.Forall₂ (fun d0 d1 =>
        if d0.IsClosed = true then
          (∃ k, d1 = newDeobfuscator k) ∧ d1.IsClosed = false
        else d1 = d0)
      l (restartClosed l c).1 := by
  induction l generalizing c with
  | nil => exact List.Forall₂.nil
  | cons d rest ih =>
      cases h : d.IsClosed with
      | true =>
          have hred : (restartClosed (d :: rest) c).1 =
              newDeobfuscator c :: (restartClosed rest (c + 1)).1 := by
            simp [restartClosed, h]
          rw [hred]
          exact List.Forall₂.cons (by rw [if_pos h]; exact ⟨⟨c, rfl⟩, rfl⟩)
            (ih _)
      | false =>
          have hred : (restartClosed (d :: rest) c).1 =
              d :: (restartClosed rest c).1 := by
            simp [restartClosed, h]
          rw [hred]
          exact List.Forall₂.cons (by simp [h]) (ih _)

theorem restartClosed_length (l : List Deobfuscator) (c : Nat) :
    (restartClosed l c).1.length = l.length :=
  (restartClosed_forall2 l c).length_eq.symm

theorem restartClosed_not_closed (l : List Deobfuscator) (c : Nat)
    (h : ∀ d ∈ l, d.IsClosed = false) : restartClosed l c = (l, c, []) := by
  induction l generalizing c with
  | nil => rfl
  | cons d rest ih =>
      have hd := h d (by simp)
      have hrest := ih c (fun x hx => h x (by simp [hx]))
      simp [restartClosed, hd, hrest]

/-- The selected handle (first ready one, else slot 0) is in the pool. -/
theorem poolSelect_mem (l : List Deobfuscator) (h : l ≠ []) :
    poolSelect l ∈ l := by
  unfold poolSelect
  cases hf : l.find? Deobfuscator.IsReady with
  | some a => simpa using List.mem_of_find?_eq_some hf
  | none =>
      cases l with
      | nil => exact absurd rfl h
      | cons a t => simp [List.headD]

/-- C9: once the pool's `Close()` has completed (setting `_pool = None`),
every subsequent `TransformLines` call on the pool fails its
`assert self._pool` precondition: an `AssertionError` escapes to the
caller, never a soft or degraded result. -/
theorem pool_transform_after_close_asserts
    (p q : DeobfuscatorPool) (effs : List Effect)
    (lines : List Str) (env : Env) (eofLine : Str)
    (hclose : p.Close = .ok (q, effs)) :
    (q.TransformLines lines env eofLine).1 = .error poolAssertMsg := by
  cases hp : p.pool with
  | none => simp [DeobfuscatorPool.Close, hp] at hclose
  | some l =>
      simp only [DeobfuscatorPool.Close, hp, Except.ok.injEq,
        Prod.mk.injEq] at hclose
      obtain ⟨h1, -⟩ := hclose
      rw [← h1]
      rfl

/-- C9 witness: closing a fresh one-handle pool then transforming fails
the assertion. -/
theorem pool_transform_after_close_asserts_witness :
    (((⟨none, 1⟩ : DeobfuscatorPool)).TransformLines [['a']]
      ⟨false, false, false, []⟩ []).1 = .error poolAssertMsg :=
  pool_transform_after_close_asserts (newDeobfuscatorPool 1) ⟨none, 1⟩
    [Effect.poolLock] [['a']] ⟨false, false, false, []⟩ [] rfl

/-- C5 counterexample: the claim says `transform([])` touches no worker at
the pool level — no lock, no spawn.  But `DeobfuscatorPool.TransformLines`
has no empty-input short-circuit: on a pool whose single handle is closed,
`transform([])` still takes the pool lock and spawns a replacement worker
process. -/
theorem pool_empty_input_spawns_worker :
    Effect.spawnProcess 1 ∈
      (DeobfuscatorPool.TransformLines
        ⟨some [{ newDeobfuscator 0 with closed_called := true }], 1⟩
        [] ⟨false, false, false, []⟩ []).2.2 ∧
    Effect.poolLock ∈
      (DeobfuscatorPool.TransformLines
        ⟨some [{ newDeobfuscator 0 with closed_called := true }], 1⟩
        [] ⟨false, false, false, []⟩ []).2.2 := by
  decide

/-- C5 (amended): at the handle level `transform([])` returns `[]` at once
— no I/O, no lock, no state change.  At the pool level the result is also
`[]` and no handle-level effect (lock, write, flush, reader, join, close,
kill, wait) is performed, but the pool lock is still taken and closed
slots may still be respawned, because the pool forwards empty input like
any other. -/
theorem transform_empty_noop_amended
    (d : Deobfuscator) (env env2 : Env) (eofLine eof2 : Str)
    (p : DeobfuscatorPool) (l : List Deobfuscator)
    (hp : p.pool = some l) (hne : l ≠ []) :
    d.TransformLines [] env eofLine = (.ok [], d, []) ∧
    (p.TransformLines [] env2 eof2).1 = .ok [] ∧
    ((p.TransformLines [] env2 eof2).2.2.all fun e => !touchesHandle e) = true := by
  obtain ⟨d0, rest, rfl⟩ := List.exists_cons_of_ne_nil hne
  obtain ⟨pp, pn⟩ := p
  simp only at hp
  subst hp
  refine ⟨rfl, rfl, ?_⟩
  rw [List.all_eq_true]
  intro e he
  have htr : (DeobfuscatorPool.TransformLines ⟨some (d0 :: rest), pn⟩ []
        env2 eof2).2.2 =
      Effect.poolLock :: ((restartClosed (d0 :: rest) pn).2.2 ++ []) := rfl
  rw [htr] at he
  simp only [List.append_nil, List.mem_cons] at he
  rcases he with rfl | he
  · rfl
  · simp [restartClosed_effects_spawn_only (d0 :: rest) pn e he]

/-- C7: while the pool is open (non-empty `_pool`), one `TransformLines`
call preserves the handle-sequence length: the restart scan replaces
exactly the closed slots in place with fresh open handles (`Forall₂`), the
rotate step (`remove` + `append`) is a permutation of the restarted
sequence, and the pool emerging from the whole call has the original
length. -/
theorem pool_handle_sequence_invariants
    (p : DeobfuscatorPool) (l : List Deobfuscator)
    (lines : List Str) (env : Env) (eofLine : Str)
    (hp : p.pool = some l) (hne : l ≠ []) :
    List.Forall₂ (fun d0 d1 =>
        if d0.IsClosed = true then
          (∃ k, d1 = newDeobfuscator k) ∧ d1.IsClosed = false
        else d1 = d0)
      l (restartClosed l p.nextId).1 ∧
    (poolLockedStep l p.nextId).1.Perm (restartClosed l p.nextId).1 ∧
    (poolLockedStep l p.nextId).1.length = l.length ∧
    ∃ l2, (p.TransformLines lines env eofLine).2.1.pool = some l2 ∧
      l2.length = l.length := by
  obtain ⟨d0, rest, rfl⟩ := List.exists_cons_of_ne_nil hne
  obtain ⟨pp, pn⟩ := p
  simp only at hp
  subst hp
  have h1 := restartClosed_forall2 (d0 :: rest) pn
  have hlen := restartClosed_length (d0 :: rest) pn
  have hne1 : (restartClosed (d0 :: rest) pn).1 ≠ [] := by
    intro h0
    rw [h0] at hlen
    simp at hlen
  have hmem := poolSelect_mem _ hne1
  have hs1 : (poolLockedStep (d0 :: rest) pn).1 =
      (restartClosed (d0 :: rest) pn).1.erase
        (poolSelect (restartClosed (d0 :: rest) pn).1) ++
      [poolSelect (restartClosed (d0 :: rest) pn).1] := rfl
  have hperm : (poolLockedStep (d0 :: rest) pn).1.Perm
      (restartClosed (d0 :: rest) pn).1 := by
    rw [hs1]
    exact (List.perm_append_singleton _ _).trans
      (List.perm_cons_erase hmem).symm
  refine ⟨h1, hperm, hperm.length_eq.trans hlen, ?_⟩
  refine ⟨_, rfl, ?_⟩
  have e1 := List.length_erase_of_mem hmem
  rw [hs1, List.dropLast_concat, List.length_append, e1, hlen]
  simp only [List.length_cons, List.length_singleton, List.length_nil]
  omega

/-- On a pool of all-ready handles the locked step is a pure rotation:
nothing is restarted, slot 0 is selected and moved to the end. -/
theorem poolLockedStep_ready (a : Deobfuscator) (t : List Deobfuscator)
    (c : Nat) (h : ∀ d ∈ a :: t, d.IsReady = true) :
    poolLockedStep (a :: t) c = (t ++ [a], c, a, []) := by
  have hnc : ∀ d ∈ a :: t, d.IsClosed = false := by
    intro d hd
    have hr := h d hd
    simp only [Deobfuscator.IsReady, Bool.and_eq_true, Bool.not_eq_true']
      at hr
    exact hr.1
  have hres := restartClosed_not_closed (a :: t) c hnc
  have hsel : poolSelect (a :: t) = a := by
    unfold poolSelect
    rw [List.find?_cons_of_pos _ (h a (by simp))]
    rfl
  simp [poolLockedStep, hres, hsel, List.erase_cons_head]

/-- Over any all-ready pool, the first `|l1|` sequential selections are
exactly `l1`, in order. -/
theorem selectionsN_rotation (l1 l2 : List Deobfuscator) (c : Nat)
    (h : ∀ d ∈ l1 ++ l2, d.IsReady = true) :
    selectionsN (l1 ++ l2) c l1.length = l1 := by
  induction l1 generalizing l2 c with
  | nil => rfl
  | cons a t ih =>
      have hstep := poolLockedStep_ready a (t ++ l2) c
        (by intro d hd; exact h d (by simpa using hd))
      simp only [List.cons_append, List.length_cons, selectionsN]
      rw [hstep]
      simp only [List.append_assoc]
      have hmem2 : ∀ d ∈ t ++ (l2 ++ [a]), d.IsReady = true := by
        intro d hd
        apply h
        simp only [List.mem_append, List.mem_cons, List.mem_singleton,
          List.cons_append] at hd ⊢
        tauto
      rw [ih (l2 ++ [a]) c hmem2]

/-- On the success path a transaction leaves the (initially ready) handle
state unchanged: the lock is taken and released, nothing else changes. -/
theorem TransformLines_success_state (d : Deobfuscator) (lines : List Str)
    (env : Env) (eofLine : Str)
    (hne : lines ≠ []) (hc : d.IsClosed = false) (hb : d.lockLocked = false)
    (hw : env.writeRaises = false) (hj : env.closedDuringJoin = false)
    (ht : env.readerTimesOut = false) :
    (d.TransformLines lines env eofLine).2.1 = d := by
  cases d
  simp_all [Deobfuscator.TransformLines, Deobfuscator.IsClosed]

/-- C8: with pool size `K = |a :: t|`, all handles ready, and `K`
sequential single-threaded calls, the selections are exactly the `K`
distinct handles in order (each chosen once before any repeat); each
locked step moves the selected handle to the end, and a full successful
`TransformLines` call writes back exactly that rotation. -/
theorem pool_rotation_fairness
    (a : Deobfuscator) (t : List Deobfuscator) (c : Nat) (lines : List Str)
    (env : Env) (eofLine : Str)
    (h : ∀ d ∈ a :: t, d.IsReady = true)
    (hne : lines ≠ []) (hw : env.writeRaises = false)
    (hj : env.closedDuringJoin = false) (ht : env.readerTimesOut = false) :
    selectionsN (a :: t) c (a :: t).length = a :: t ∧
    poolLockedStep (a :: t) c = (t ++ [a], c, a, []) ∧
    (DeobfuscatorPool.TransformLines ⟨some (a :: t), c⟩ lines env
        eofLine).2.1 = ⟨some (t ++ [a]), c⟩ := by
  have hstep := poolLockedStep_ready a t c h
  refine ⟨?_, hstep, ?_⟩
  · have hsel := selectionsN_rotation (a :: t) [] c (by simpa using h)
    simpa using hsel
  · have hready := h a (by simp)
    simp only [Deobfuscator.IsReady, Bool.and_eq_true, Bool.not_eq_true']
      at hready
    have hstate := TransformLines_success_state a lines env eofLine hne
      hready.1 hready.2 hw hj ht
    have htl : (DeobfuscatorPool.TransformLines ⟨some (a :: t), c⟩ lines env
        eofLine).2.1 =
        { pool := some ((poolLockedStep (a :: t) c).1.dropLast ++
            [((poolLockedStep (a :: t) c).2.2.1.TransformLines lines env
              eofLine).2.1]),
          nextId := (poolLockedStep (a :: t) c).2.1 } := rfl
    rw [htl]
    simp [hstep, hstate, List.dropLast_concat]

/-- C8 witness: a two-handle pool of fresh handles is served round-robin:
both are selected once over two calls, and one call rotates the pool. -/
theorem pool_rotation_fairness_witness :
    selectionsN (newDeobfuscator 0 :: [newDeobfuscator 1]) 2
        (newDeobfuscator 0 :: [newDeobfuscator 1]).length =
      newDeobfuscator 0 :: [newDeobfuscator 1] ∧
    poolLockedStep (newDeobfuscator 0 :: [newDeobfuscator 1]) 2 =
      ([newDeobfuscator 1] ++ [newDeobfuscator 0], 2, newDeobfuscator 0,
        []) ∧
    (DeobfuscatorPool.TransformLines
        ⟨some (newDeobfuscator 0 :: [newDeobfuscator 1]), 2⟩ [['a']]
        ⟨false, false, false, []⟩ []).2.1 =
      ⟨some ([newDeobfuscator 1] ++ [newDeobfuscator 0]), 2⟩ :=
  pool_rotation_fairness (newDeobfuscator 0) [newDeobfuscator 1] 2 [['a']]
    ⟨false, false, false, []⟩ [] (by decide) (by decide) rfl rfl rfl

/-- C7 witness: a singleton open pool keeps length 1 through a call. -/
theorem pool_handle_sequence_invariants_witness :
    List.Forall₂ (fun d0 d1 =>
        if d0.IsClosed = true then
          (∃ k, d1 = newDeobfuscator k) ∧ d1.IsClosed = false
        else d1 = d0)
      [newDeobfuscator 0] (restartClosed [newDeobfuscator 0] 1).1 ∧
    (poolLockedStep [newDeobfuscator 0] 1).1.Perm
      (restartClosed [newDeobfuscator 0] 1).1 ∧
    (poolLockedStep [newDeobfuscator 0] 1).1.length =
      ([newDeobfuscator 0] : List Deobfuscator).length ∧
    ∃ l2, ((⟨some [newDeobfuscator 0], 1⟩ : DeobfuscatorPool).TransformLines
        [['a']] ⟨false, false, false, []⟩ []).2.1.pool = some l2 ∧
      l2.length = ([newDeobfuscator 0] : List Deobfuscator).length :=
  pool_handle_sequence_invariants ⟨some [newDeobfuscator 0], 1⟩
    [newDeobfuscator 0] [['a']] ⟨false, false, false, []⟩ [] rfl
    (by decide)

/-- C5 amended witness: a fresh singleton pool on empty input. -/
theorem transform_empty_noop_amended_witness :
    (newDeobfuscator 5).TransformLines [] ⟨false, false, false, []⟩ [] =
      (.ok [], newDeobfuscator 5, []) ∧
    ((⟨some [newDeobfuscator 0], 1⟩ : DeobfuscatorPool).TransformLines []
      ⟨false, false, false, []⟩ []).1 = .ok [] ∧
    (((⟨some [newDeobfuscator 0], 1⟩ : DeobfuscatorPool).TransformLines []
      ⟨false, false, false, []⟩ []).2.2.all fun e => !touchesHandle e) = true :=
  transform_empty_noop_amended (newDeobfuscator 5) ⟨false, false, false, []⟩
    ⟨false, false, false, []⟩ [] [] ⟨some [newDeobfuscator 0], 1⟩
    [newDeobfuscator 0] rfl (by decide)
